import Mathlib

/-!
Shallow embedding of the `logrus-logstash-hook` repository (Go), for checking
its natural-language specification.

Source files embedded:
* `logstash_writer.go` — the encoder (`LogstashWriter.WriteWithPrefix`).
* the hook file — `Hook`, `Fire`, `filterHookOnly`, `getFormatBuf`,
  `processEntryData`, `sendDataAndRetry`, the dispatch channel and the pools.

Modelling conventions:
* Go `logrus.Fields` (a `map[string]interface{}`) is modelled as an
  association list `List (String × Value)`; `Value` is the closed variant the
  spec prescribes for the dynamically typed field values.  Map update is
  `insertS` (replace the first occurrence of the key, or insert keeping the
  list sorted by key), lookup is `getVal` (first occurrence).  Maps built from
  the empty list by `insertS` are sorted by key, matching the key-sorted
  output of Go's `encoding/json` map marshalling.  Go's randomized map
  iteration order is determinized to list order; no claim below depends on
  the iteration order except through the final map contents.
* Strings are Lean `String`s; the byte-level Go operations
  (`strings.HasPrefix`, `strings.TrimPrefix`) are modelled on the character
  lists (`hasPre`, `stripKey`), which agrees with Go on all valid UTF-8 data.
* `encoding/json` is modelled at its interface: `serializeFields` is a
  compact JSON object serializer (sorted-key association list in, bytes out,
  `Except` for the unsupported-type failure); `jsonEncode` models
  `json.Encoder.Encode`, which by its Go documentation writes the JSON
  encoding *followed by a newline character*.
* The network is modelled by an oracle `NetEnv` giving each dial's result and
  each connection's write outcome; `sendDataAndRetry` additionally returns
  the trace of write/dial events it performed so that "exactly one write /
  dial" properties can be stated.
* Buffers are identified by `Nat` ids; the `sync.Pool` of buffers is a list
  of idle buffer ids plus a fresh-id counter.
-/

namespace LogrusLogstash

/-- Dynamically typed field value (`interface{}` in Go), as the closed variant
over string / number / boolean / error / null required by the wire format,
plus an opaque, JSON-unserializable value (a Go `func`/`chan`, on which
`encoding/json` fails with an unsupported-type error). -/
inductive Value where
  | vStr (s : String)
  | vInt (n : Int)
  | vBool (b : Bool)
  | vErr (msg : String)
  | vNull
  | vOpaque (tag : Nat)
deriving DecidableEq

/-- The logrus severity levels. -/
inductive Level where
  | lvlPanic
  | lvlFatal
  | lvlError
  | lvlWarn
  | lvlInfo
  | lvlDebug
deriving DecidableEq

/-- Canonical lowercase name of a level (`logrus.Level.String()`). -/
def Level.str : Level → String
  | .lvlPanic => "panic"
  | .lvlFatal => "fatal"
  | .lvlError => "error"
  | .lvlWarn => "warning"
  | .lvlInfo => "info"
  | .lvlDebug => "debug"

/-- A field mapping (`logrus.Fields`), as an association list. -/
abbrev Fields := List (String × Value)

/-- A `logrus.Entry`: message, level, creation time and the mutable field
mapping.  Time is abstracted to a `Nat` instant. -/
structure Entry where
  message : String
  level : Level
  time : Nat
  data : Fields
deriving DecidableEq

/-- Map lookup: value at the first occurrence of the key. -/
def getVal : List (String × α) → String → Option α
  | [], _ => none
  | (k, v) :: t, key => if key = k then some v else getVal t key

/-- Lexicographic order on character lists (used to keep maps built from
scratch in the key order in which Go's json marshaller emits map keys). -/
def lexLt : List Char → List Char → Bool
  | [], [] => false
  | [], _ :: _ => true
  | _ :: _, [] => false
  | a :: s, b :: t => if a < b then true else if a = b then lexLt s t else false

/-- Map update: replace the value at the first occurrence of the key, or
insert the new pair at its sorted position. -/
def insertS : List (String × α) → String → α → List (String × α)
  | [], key, v => [(key, v)]
  | (k, w) :: t, key, v =>
    if lexLt key.data k.data then (key, v) :: (k, w) :: t
    else if key = k then (key, v) :: t
    else (k, w) :: insertS t key v

/-- The keys of a field mapping. -/
def keysOf (l : List (String × α)) : List String := l.map Prod.fst

theorem getVal_insertS (l : List (String × α)) (key k : String) (v : α) :
    getVal (insertS l key v) k = if k = key then some v else getVal l k := by
  induction l with
  | nil => simp [insertS, getVal]
  | cons hd t ih =>
    obtain ⟨k0, w⟩ := hd
    by_cases hlt : lexLt key.data k0.data
    · by_cases hk : k = key <;> simp [insertS, getVal, hlt, hk]
    · by_cases he : key = k0
      · subst he
        by_cases hk : k = key <;> simp [insertS, getVal, hlt, hk]
      · by_cases hk : k = k0
        · subst hk
          have : ¬ k = key := fun h => he h.symm
          simp [insertS, getVal, hlt, he, this]
        · simp [insertS, getVal, hlt, he, hk, ih]

theorem mem_keysOf_insertS (l : List (String × α)) (key k : String) (v : α) :
    k ∈ keysOf (insertS l key v) ↔ k = key ∨ k ∈ keysOf l := by
  induction l with
  | nil => simp [insertS, keysOf]
  | cons hd t ih =>
    obtain ⟨k0, w⟩ := hd
    by_cases hlt : lexLt key.data k0.data
    · simp [insertS, keysOf, hlt]
    · by_cases he : key = k0
      · subst he
        simp [insertS, keysOf, hlt]
      · simp [insertS, keysOf, hlt, he] at ih ⊢
        tauto

theorem getVal_isSome_iff (l : List (String × α)) (k : String) :
    (getVal l k).isSome = true ↔ k ∈ keysOf l := by
  induction l with
  | nil => simp [getVal, keysOf]
  | cons hd t ih =>
    obtain ⟨k0, w⟩ := hd
    by_cases hk : k = k0 <;> simp [getVal, keysOf, hk, ih]

/-- Character-list model of `strings.HasPrefix`. -/
def hasPre (p k : List Char) : Bool :=
  match p, k with
  | [], _ => true
  | _ :: _, [] => false
  | a :: p, b :: k => a = b && hasPre p k

/-- The per-key step of the encoder's copy loop: when a non-empty configured
prefix starts the key, trim it (`strings.TrimPrefix`), else keep the key. -/
def stripKey (pfx k : String) : String :=
  if pfx ≠ "" && hasPre pfx.data k.data then String.mk (k.data.drop pfx.data.length) else k

/-- The per-value step of the encoder's copy loop: an error-like value is
replaced by its textual description (`v.Error()`); every other value is
copied as is. -/
def errConv : Value → Value
  | .vErr m => .vStr m
  | v => v

/-- The encoder's copy loop: copy every record field into the output mapping,
stripping the configured prefix from the key and converting error values. -/
def copyFields (pfx : String) (data : Fields) : Fields :=
  data.foldl (fun acc kv => insertS acc (stripKey pfx kv.1) (errConv kv.2)) []

/-- The `LogstashWriter` configuration: the logstash type label and the
timestamp format. -/
structure LogstashWriter where
  typ : String
  timestampFormat : String

/-- Modelled from the spec: logrus's `defaultTimestampFormat` constant
(`time.RFC3339`), referenced by the writer but declared outside this
repository. -/
def defaultTimestampFormat : String := "2006-01-02T15:04:05Z07:00"

/-- Opaque model of the external Go time formatter `entry.Time.Format`:
injective in the instant and the format string, otherwise uninterpreted. -/
def formatTime (t : Nat) (fmt : String) : String :=
  "time<" ++ Nat.repr t ++ "|" ++ fmt ++ ">"

/-- The output field mapping that `LogstashWriter.WriteWithPrefix` hands to the
JSON encoder, built exactly in the source's order: copy loop, `@version`,
`@timestamp`, then the `message` / `level` / `type` collision steps, each of
which consults the *record's* field mapping `entry.Data`. -/
def buildFields (w : LogstashWriter) (entry : Entry) (pfx : String) : Fields :=
  let f0 := copyFields pfx entry.data
  let f1 := insertS f0 "@version" (.vStr "1")
  let tsf := if w.timestampFormat = "" then defaultTimestampFormat else w.timestampFormat
  let f2 := insertS f1 "@timestamp" (.vStr (formatTime entry.time tsf))
  let f3 := match getVal entry.data "message" with
    | some v => insertS f2 "fields.message" v
    | none => f2
  let f4 := insertS f3 "message" (.vStr entry.message)
  let f5 := match getVal entry.data "level" with
    | some v => insertS f4 "fields.level" v
    | none => f4
  let f6 := insertS f5 "level" (.vStr entry.level.str)
  if w.typ = "" then f6
  else
    let f7 := match getVal entry.data "type" with
      | some v => insertS f6 "fields.type" v
      | none => f6
    insertS f7 "type" (.vStr w.typ)

/-- Decimal digit character. -/
def digitChar : Nat → Char
  | 0 => '0' | 1 => '1' | 2 => '2' | 3 => '3' | 4 => '4'
  | 5 => '5' | 6 => '6' | 7 => '7' | 8 => '8' | _ => '9'

/-- Hexadecimal digit character. -/
def hexDigit : Nat → Char
  | 0 => '0' | 1 => '1' | 2 => '2' | 3 => '3' | 4 => '4'
  | 5 => '5' | 6 => '6' | 7 => '7' | 8 => '8' | 9 => '9'
  | 10 => 'a' | 11 => 'b' | 12 => 'c' | 13 => 'd' | 14 => 'e' | _ => 'f'

/-- Decimal digits of a natural number (fuelled so that it computes by
structural recursion; the fuel `n + 1` always suffices). -/
def natCharsCore : Nat → Nat → List Char → List Char
  | 0, _, acc => acc
  | fuel + 1, n, acc =>
    if n < 10 then digitChar n :: acc
    else natCharsCore fuel (n / 10) (digitChar (n % 10) :: acc)

def natChars (n : Nat) : List Char := natCharsCore (n + 1) n []

def intChars (n : Int) : List Char :=
  if n < 0 then '-' :: natChars n.natAbs else natChars n.toNat

/-- JSON escaping of one character, as Go's `encoding/json` emits it with its
default HTML escaping (`"`, `\`, control characters, and `<` `>` `&`). -/
def escapeChar (c : Char) : List Char :=
  if c = '"' then ['\\', '"']
  else if c = '\\' then ['\\', '\\']
  else if c = '\n' then ['\\', 'n']
  else if c = '\r' then ['\\', 'r']
  else if c = '\t' then ['\\', 't']
  else if c = '<' then ['\\', 'u', '0', '0', '3', 'c']
  else if c = '>' then ['\\', 'u', '0', '0', '3', 'e']
  else if c = '&' then ['\\', 'u', '0', '0', '2', '6']
  else if c.toNat < 32 then ['\\', 'u', '0', '0', hexDigit (c.toNat / 16), hexDigit (c.toNat % 16)]
  else [c]

/-- A JSON string literal: quoted, escaped. -/
def quoteString (s : String) : List Char :=
  '"' :: (s.data.map escapeChar).flatten ++ ['"']

/-- JSON serialization of one field value.  A Go `error` value marshals to the
empty object (no exported fields); an opaque value (`func`/`chan`) makes
`encoding/json` fail. -/
def serializeValue : Value → Except String (List Char)
  | .vStr s => .ok (quoteString s)
  | .vInt n => .ok (intChars n)
  | .vBool true => .ok ['t', 'r', 'u', 'e']
  | .vBool false => .ok ['f', 'a', 'l', 's', 'e']
  | .vErr _ => .ok ['\x7b', '\x7d']
  | .vNull => .ok ['n', 'u', 'l', 'l']
  | .vOpaque _ => .error "json: unsupported type"

/-- Comma-separated `"key":value` pairs of a JSON object body. -/
def serializePairs : Fields → Except String (List Char)
  | [] => .ok []
  | (k, v) :: t =>
    match serializeValue v, serializePairs t with
    | .ok vc, .ok tc =>
        .ok (quoteString k ++ ':' :: vc ++ (if t.isEmpty then [] else ',' :: tc))
    | .error e, _ => .error e
    | .ok _, .error e => .error e

/-- JSON serialization of the output mapping as one JSON object document
(`json.Marshal` of a Go map; the mapping is already in the sorted key order
that marshalling emits). -/
def serializeFields (l : Fields) : Except String (List Char) :=
  match serializePairs l with
  | .ok cs => .ok ('\x7b' :: cs ++ ['\x7d'])
  | .error e => .error e

/-- Model of `json.Encoder.Encode`: on success the stream receives the JSON
document followed by a newline character (documented Go behaviour); on
failure nothing is written. -/
def jsonEncode (l : Fields) : Except String (List Char) :=
  match serializeFields l with
  | .ok cs => .ok (cs ++ ['\n'])
  | .error e => .error e

/-- The encoder `LogstashWriter.WriteWithPrefix`: build the output mapping,
`Encode` it into the sink, then write one more `"\n"`.  The returned value is
the whole byte stream written to the sink (a `bytes.Buffer`, whose writes
never fail). -/
def writeWithPrefix (w : LogstashWriter) (entry : Entry) (pfx : String) :
    Except String (List Char) :=
  match jsonEncode (buildFields w entry pfx) with
  | .error e => .error ("Failed to marshal fields to JSON, " ++ e)
  | .ok encoded => .ok (encoded ++ ['\n'])

/-- A pending send-task (`sendMessage`): endpoint, the pooled buffer carrying
the encoded bytes, and those bytes. -/
structure SendMessage where
  protocol : String
  address : String
  buf : Nat
  data : List Char
deriving DecidableEq

/-- The connection pool `connPool`, keyed by `protocol + ":" + address`;
connections are identified by `Nat` ids. -/
abbrev ConnPool := String → Option Nat

/-- Capacity of the dispatch channel `entryChan` (`make(chan sendMessage, 1000)`). -/
def entryChanCap : Nat := 1000

/-- The non-blocking enqueue `select { case entryChan <- msg: default: }`:
append if a slot is free, otherwise drop the task silently. -/
def tryEnqueue (q : List SendMessage) (m : SendMessage) : List SendMessage :=
  if q.length < entryChanCap then q ++ [m] else q

/-- The process-wide mutable state a `Fire` call can touch: the dispatch
queue, the buffer pool (idle buffer ids plus a fresh-id counter), and the
connection pool (owned by the sender; `Fire` never reads or writes it). -/
structure PipeState where
  queue : List SendMessage
  bufPool : List Nat
  nextBuf : Nat
  connPool : ConnPool

/-- The hook configuration (`Hook`). -/
structure Hook where
  protocol : String
  address : String
  filtering : Bool
  appName : String
  alwaysSentFields : Fields
  hookOnlyPrefix : String

/-- The prefix filter `filterHookOnly`: when a non-empty prefix is configured,
delete from the record's field mapping every key that starts with it. -/
def filterHookOnly (pfx : String) (data : Fields) : Fields :=
  if pfx ≠ "" then data.filter (fun kv => !(hasPre pfx.data kv.1.data)) else data

/-- The default-field merge inside `Fire`: add each configured default field
only when its key is absent from the record's mapping. -/
def mergeDefaults (defaults data : Fields) : Fields :=
  defaults.foldl
    (fun acc kv => if (getVal acc kv.1).isSome then acc else insertS acc kv.1 kv.2) data

/-- `getFormatBuf`: borrow a buffer from the `sync.Pool` — an idle one if
available (reset, so its id alone matters), else a freshly allocated one. -/
def getFormatBuf (st : PipeState) : Nat × PipeState :=
  match st.bufPool with
  | b :: rest => (b, { st with bufPool := rest })
  | [] => (st.nextBuf, { st with nextBuf := st.nextBuf + 1 })

/-- The result of one `Fire` call: the returned error value, the caller's
record field mapping after the call (the deferred `filterHookOnly` has run),
and the process state after the call. -/
structure FireResult where
  res : Except String Unit
  entryData : Fields
  state : PipeState

/-- `Hook.Fire`: merge the default fields into the record, stop there in
filter-only mode, otherwise borrow a buffer, encode, and non-blockingly
enqueue a send-task; the deferred prefix strip runs on every return path. -/
def Hook.fire (h : Hook) (entry : Entry) (st : PipeState) : FireResult :=
  let merged := mergeDefaults h.alwaysSentFields entry.data
  if h.filtering then
    ⟨.ok (), filterHookOnly h.hookOnlyPrefix merged, st⟩
  else
    let bs := getFormatBuf st
    let w : LogstashWriter := ⟨h.appName, ""⟩
    match writeWithPrefix w { entry with data := merged } h.hookOnlyPrefix with
    | .error e => ⟨.error e, filterHookOnly h.hookOnlyPrefix merged, bs.2⟩
    | .ok out =>
      ⟨.ok (), filterHookOnly h.hookOnlyPrefix merged,
        { bs.2 with queue := tryEnqueue bs.2.queue ⟨h.protocol, h.address, bs.1, out⟩ }⟩

/-- Oracle for the external network: the connection (if any) each dial
returns, and whether a write on a given connection succeeds. -/
structure NetEnv where
  dialRes : String → String → Option Nat
  writeOk : Nat → Bool

/-- One observable network action of the sender. -/
inductive SendEvent where
  | write (conn : Nat)
  | dial (protocol address : String)
deriving DecidableEq

/-- The key under which `sendDataAndRetry` looks a task's endpoint up in the
connection pool. -/
def poolKey (m : SendMessage) : String := m.protocol ++ ":" ++ m.address

/-- `sendDataAndRetry`: write on the pooled connection if present; on a miss
or a failed write, dial once; on dial success store the new connection and
write exactly once more, whose outcome is final.  Also returns the trace of
network events performed. -/
def sendDataAndRetry (env : NetEnv) (pool : ConnPool) (m : SendMessage) :
    Except String Nat × ConnPool × List SendEvent :=
  match pool (poolKey m) with
  | some c =>
    if env.writeOk c then (.ok m.data.length, pool, [.write c])
    else
      match env.dialRes m.protocol m.address with
      | none => (.error "dial error", pool, [.write c, .dial m.protocol m.address])
      | some c2 =>
        (if env.writeOk c2 then .ok m.data.length else .error "write error",
         fun k => if k = poolKey m then some c2 else pool k,
         [.write c, .dial m.protocol m.address, .write c2])
  | none =>
    match env.dialRes m.protocol m.address with
    | none => (.error "dial error", pool, [.dial m.protocol m.address])
    | some c2 =>
      (if env.writeOk c2 then .ok m.data.length else .error "write error",
       fun k => if k = poolKey m then some c2 else pool k,
       [.dial m.protocol m.address, .write c2])

/-- One iteration of the sender loop `processEntryData` on a consumed task:
send with one retry, then unconditionally return the task's buffer to the
buffer pool, and report a failure to the process error stream. -/
def processEntryData (env : NetEnv) (pool : ConnPool) (bufPool : List Nat)
    (m : SendMessage) : ConnPool × List Nat × Option String × List SendEvent :=
  let r := sendDataAndRetry env pool m
  (r.2.1, bufPool ++ [m.buf],
   match r.1 with
   | .ok _ => none
   | .error e => some ("Error sending data to logstash: " ++ e),
   r.2.2)

/-- Concrete sample inputs (the repository's own `TestFire` scenario), shared
by the witnesses below. -/
def sampleHook : Hook :=
  ⟨"udp", "localhost:9999", false, "fire_test",
    [("test-name", .vStr "fire-test"), ("->ignore", .vStr "haaa"), ("override", .vStr "no")],
    "->"⟩

def sampleEntry : Entry := ⟨"hello world!", .lvlDebug, 0, [("override", .vStr "yes")]⟩

def sampleState : PipeState := ⟨[], [], 0, fun _ => none⟩

def sampleFilterHook : Hook := { sampleHook with filtering := true, hookOnlyPrefix := "_" }

/-- A state whose dispatch queue is full, for the C4 witness. -/
def fullState : PipeState :=
  ⟨List.replicate 1000 ⟨"udp", "localhost:9999", 0, []⟩, [], 0, fun _ => none⟩

/-- An entry holding a JSON-unserializable field value, for witnesses that
need the encoding step to fail. -/
def badEntry : Entry := ⟨"hello", .lvlInfo, 0, [("f", .vOpaque 0)]⟩

/-! ## General lemmas about the embedding -/

theorem getFormatBuf_queue (st : PipeState) : (getFormatBuf st).2.queue = st.queue := by
  unfold getFormatBuf
  cases st.bufPool <;> rfl

theorem getFormatBuf_connPool (st : PipeState) :
    (getFormatBuf st).2.connPool = st.connPool := by
  unfold getFormatBuf
  cases st.bufPool <;> rfl

theorem fire_entryData (h : Hook) (entry : Entry) (st : PipeState) :
    (h.fire entry st).entryData
      = filterHookOnly h.hookOnlyPrefix (mergeDefaults h.alwaysSentFields entry.data) := by
  unfold Hook.fire
  by_cases hf : h.filtering
  · simp [hf]
  · simp only [hf, if_false, Bool.false_eq_true]
    split <;> simp

/-- C9: the prefix-strip operation is idempotent: for every record field
mapping and every prefix, applying `filterHookOnly`'s strip logic twice
yields the same mapping as applying it once. -/
theorem c9_filterHookOnly_idem (pfx : String) (d : Fields) :
    filterHookOnly pfx (filterHookOnly pfx d) = filterHookOnly pfx d := by
  unfold filterHookOnly
  by_cases hp : pfx = ""
  · simp [hp]
  · simp [hp, List.filter_filter]

/-- C6: for every record and every `Fire` call — shipping or filter-only mode,
whatever the encoding or enqueuing outcome — with a non-empty configured
prefix, after `Fire` returns the caller's record field mapping contains no
key starting with the prefix. -/
theorem c6_fire_strips_prefixed_keys (h : Hook) (entry : Entry) (st : PipeState)
    (hp : h.hookOnlyPrefix ≠ "") :
    ((h.fire entry st).entryData.all
      fun kv => !(hasPre h.hookOnlyPrefix.data kv.1.data)) = true := by
  rw [fire_entryData]
  unfold filterHookOnly
  simp only [hp, if_pos, ne_eq, not_false_iff, if_true, List.all_eq_true]
  intro kv hkv
  exact (List.mem_filter.mp hkv).2

/-- Witness for C6 at the repository's `TestFire` scenario. -/
theorem c6_witness :
    sampleHook.hookOnlyPrefix ≠ "" ∧
    ((sampleHook.fire sampleEntry sampleState).entryData.all
      fun kv => !(hasPre sampleHook.hookOnlyPrefix.data kv.1.data)) = true :=
  ⟨by decide, c6_fire_strips_prefixed_keys sampleHook sampleEntry sampleState (by decide)⟩

/-- C8: a hook in filter-only mode performs the default-field merge and the
prefix strip on the record, returns no error, and leaves the whole process
state — dispatch queue, buffer pool and connection pool — unchanged: it never
encodes, never borrows a buffer, never enqueues a send-task and never writes
to any connection. -/
theorem c8_filter_only_frame (h : Hook) (entry : Entry) (st : PipeState)
    (hf : h.filtering = true) :
    h.fire entry st =
      ⟨.ok (), filterHookOnly h.hookOnlyPrefix (mergeDefaults h.alwaysSentFields entry.data),
        st⟩ := by
  simp [Hook.fire, hf]

/-- Witness for C8 at a concrete filter-only hook. -/
theorem c8_witness :
    sampleFilterHook.filtering = true ∧
    sampleFilterHook.fire sampleEntry sampleState =
      ⟨.ok (),
        filterHookOnly sampleFilterHook.hookOnlyPrefix
          (mergeDefaults sampleFilterHook.alwaysSentFields sampleEntry.data),
        sampleState⟩ :=
  ⟨rfl, c8_filter_only_frame sampleFilterHook sampleEntry sampleState rfl⟩

/-- C5: `Fire`'s error contract.  In shipping mode, `Fire`'s returned value is
exactly the encoder's outcome — a non-nil error if and only if encoding the
record fails — and on an encoding failure nothing is enqueued (the queue is
unchanged); in filter-only mode `Fire` always returns nil.  Failures after a
successful enqueue happen in the sender and are not part of `Fire`'s result
at all. -/
theorem c5_fire_error_contract (h : Hook) (entry : Entry) (st : PipeState) :
    (h.filtering = true → (h.fire entry st).res = .ok ()) ∧
    (h.filtering = false →
      (h.fire entry st).res =
        Except.map (fun _ => ())
          (writeWithPrefix ⟨h.appName, ""⟩
            { entry with data := mergeDefaults h.alwaysSentFields entry.data }
            h.hookOnlyPrefix) ∧
      ∀ e, writeWithPrefix ⟨h.appName, ""⟩
            { entry with data := mergeDefaults h.alwaysSentFields entry.data }
            h.hookOnlyPrefix = .error e →
          (h.fire entry st).state.queue = st.queue) := by
  constructor
  · intro hf
    simp [Hook.fire, hf]
  · intro hf
    constructor
    · unfold Hook.fire
      simp only [hf, Bool.false_eq_true, if_false]
      split <;> rename_i heq <;> rw [heq] <;> rfl
    · intro e he
      simp [Hook.fire, hf, he, getFormatBuf_queue]

/-- Witness for C5: a shipping-mode call whose encoding fails returns exactly
that error. -/
theorem c5_witness :
    sampleHook.filtering = false ∧
    (sampleHook.fire badEntry sampleState).res =
      Except.map (fun _ => ())
        (writeWithPrefix ⟨sampleHook.appName, ""⟩
          { badEntry with data := mergeDefaults sampleHook.alwaysSentFields badEntry.data }
          sampleHook.hookOnlyPrefix) :=
  ⟨rfl, ((c5_fire_error_contract sampleHook badEntry sampleState).2 rfl).1⟩

/-- C4: the dispatch queue has fixed capacity 1000 and enqueue is
non-blocking: a shipping-mode `Fire` call (with a record that encodes
successfully) made while the queue already holds 1000 pending tasks returns
without error and the new task is silently dropped — the queue is unchanged
and no error is surfaced to the producer.  Blocking is not representable
here; the enqueue is the total function `tryEnqueue`, the model of the
`select`/`default` non-blocking send. -/
theorem c4_queue_full_drop (h : Hook) (entry : Entry) (st : PipeState)
    (hf : h.filtering = false)
    (hq : st.queue.length = entryChanCap)
    (henc : ∃ out, writeWithPrefix ⟨h.appName, ""⟩
      { entry with data := mergeDefaults h.alwaysSentFields entry.data }
      h.hookOnlyPrefix = .ok out) :
    entryChanCap = 1000 ∧
    (h.fire entry st).res = .ok () ∧
    (h.fire entry st).state.queue = st.queue := by
  obtain ⟨out, hout⟩ := henc
  refine ⟨rfl, ?_, ?_⟩
  · simp [Hook.fire, hf, hout]
  · simp [Hook.fire, hf, hout, tryEnqueue, getFormatBuf_queue, hq]

/-- Witness for C4 at a queue already holding 1000 tasks. -/
theorem c4_witness :
    entryChanCap = 1000 ∧
    (sampleHook.fire sampleEntry fullState).res = .ok () ∧
    (sampleHook.fire sampleEntry fullState).state.queue = fullState.queue :=
  c4_queue_full_drop sampleHook sampleEntry fullState rfl
    (by simp only [fullState, entryChanCap, List.length_replicate]) ⟨_, rfl⟩

/-- C3: the sender's per-task policy, with its observable network trace.  If
the pool holds a connection for the task's endpoint, one write is attempted
on it and success ends the task with no dial; if the connection is absent or
that write fails, the endpoint is dialed exactly once; on dial failure the
task is abandoned with the error and the pool is unchanged; on dial success
the new connection replaces the pooled one (other keys untouched) and exactly
one more write is attempted, whose outcome is final; and in every outcome
`processEntryData` returns the task's buffer to the buffer pool. -/
theorem c3_sender_retry_policy (env : NetEnv) (pool : ConnPool) (m : SendMessage) :
    (∀ c, pool (poolKey m) = some c → env.writeOk c = true →
      sendDataAndRetry env pool m = (.ok m.data.length, pool, [.write c])) ∧
    (∀ c, pool (poolKey m) = some c → env.writeOk c = false →
      env.dialRes m.protocol m.address = none →
      sendDataAndRetry env pool m =
        (.error "dial error", pool, [.write c, .dial m.protocol m.address])) ∧
    (∀ c c2, pool (poolKey m) = some c → env.writeOk c = false →
      env.dialRes m.protocol m.address = some c2 →
      sendDataAndRetry env pool m =
        ((if env.writeOk c2 then .ok m.data.length else .error "write error"),
         fun k => if k = poolKey m then some c2 else pool k,
         [.write c, .dial m.protocol m.address, .write c2])) ∧
    (pool (poolKey m) = none →
      env.dialRes m.protocol m.address = none →
      sendDataAndRetry env pool m =
        (.error "dial error", pool, [.dial m.protocol m.address])) ∧
    (∀ c2, pool (poolKey m) = none →
      env.dialRes m.protocol m.address = some c2 →
      sendDataAndRetry env pool m =
        ((if env.writeOk c2 then .ok m.data.length else .error "write error"),
         fun k => if k = poolKey m then some c2 else pool k,
         [.dial m.protocol m.address, .write c2])) ∧
    (∀ bufPool, m.buf ∈ (processEntryData env pool bufPool m).2.1) := by
  refine ⟨?_, ?_, ?_, ?_, ?_, ?_⟩
  · intro c hc hw
    simp [sendDataAndRetry, hc, hw]
  · intro c hc hw hd
    simp [sendDataAndRetry, hc, hw, hd]
  · intro c c2 hc hw hd
    simp [sendDataAndRetry, hc, hw, hd]
  · intro hc hd
    simp [sendDataAndRetry, hc, hd]
  · intro c2 hc hd
    simp [sendDataAndRetry, hc, hd]
  · intro bufPool
    simp [processEntryData]

/-- Concrete sender scenario for the C3 witness: a pooled connection whose
write fails, a dial that succeeds, and a second write that succeeds. -/
def sampleEnv : NetEnv := ⟨fun _ _ => some 7, fun c => c == 7⟩

def samplePool : ConnPool := fun k => if k = "udp:localhost:9999" then some 5 else none

def sampleMsg : SendMessage := ⟨"udp", "localhost:9999", 3, ['x']⟩

/-- Witness for C3: the failed pooled write is followed by exactly one dial
and one final write, the pool is updated, and the buffer is returned. -/
theorem c3_witness :
    samplePool (poolKey sampleMsg) = some 5 ∧
    sampleEnv.writeOk 5 = false ∧
    sampleEnv.dialRes sampleMsg.protocol sampleMsg.address = some 7 ∧
    sendDataAndRetry sampleEnv samplePool sampleMsg =
      ((if sampleEnv.writeOk 7 then .ok sampleMsg.data.length else .error "write error"),
       fun k => if k = poolKey sampleMsg then some 7 else samplePool k,
       [.write 5, .dial sampleMsg.protocol sampleMsg.address, .write 7]) ∧
    sampleMsg.buf ∈ (processEntryData sampleEnv samplePool [] sampleMsg).2.1 :=
  ⟨by decide, by decide, rfl,
   (c3_sender_retry_policy sampleEnv samplePool sampleMsg).2.2.1 5 7 (by decide) (by decide) rfl,
   (c3_sender_retry_policy sampleEnv samplePool sampleMsg).2.2.2.2.2 []⟩

/-- A state with two idle pooled buffers, for the C10 witness. -/
def bufState : PipeState := ⟨[], [4, 9], 10, fun _ => none⟩

theorem fire_bufPool (h : Hook) (entry : Entry) (st : PipeState)
    (hf : h.filtering = false) :
    (h.fire entry st).state.bufPool = (getFormatBuf st).2.bufPool := by
  unfold Hook.fire
  simp only [hf, Bool.false_eq_true, if_false]
  split <;> rfl

/-- C10: in shipping mode, when encoding fails or the dispatch queue is full
at enqueue time, the buffer borrowed for that `Fire` call is not returned to
the buffer pool — `Fire` leaves the pool exactly as the borrow left it, so
the borrowed buffer is absent from it; the pool's return operation is invoked
only by the sender (`processEntryData`) on the task it consumed. -/
theorem c10_borrowed_buffer_not_returned (h : Hook) (entry : Entry) (st : PipeState)
    (hf : h.filtering = false)
    (hnd : st.bufPool.Nodup)
    (_hdrop : (∃ e, writeWithPrefix ⟨h.appName, ""⟩
        { entry with data := mergeDefaults h.alwaysSentFields entry.data }
        h.hookOnlyPrefix = .error e) ∨ entryChanCap ≤ st.queue.length) :
    (h.fire entry st).state.bufPool = (getFormatBuf st).2.bufPool ∧
    (getFormatBuf st).1 ∉ (h.fire entry st).state.bufPool ∧
    (∀ env cp bp m, m.buf ∈ (processEntryData env cp bp m).2.1) := by
  refine ⟨fire_bufPool h entry st hf, ?_, ?_⟩
  · rw [fire_bufPool h entry st hf]
    unfold getFormatBuf
    cases hb : st.bufPool with
    | nil => simp
    | cons b rest =>
      simp only []
      rw [hb] at hnd
      simpa using (List.nodup_cons.mp hnd).1
  · intro env cp bp m
    simp [processEntryData]

/-- Witness for C10: encoding fails (opaque field value) with two idle
buffers pooled; the borrowed buffer does not come back. -/
theorem c10_witness :
    (sampleHook.fire badEntry bufState).state.bufPool = (getFormatBuf bufState).2.bufPool ∧
    (getFormatBuf bufState).1 ∉ (sampleHook.fire badEntry bufState).state.bufPool ∧
    sampleMsg.buf ∈ (processEntryData sampleEnv samplePool [] sampleMsg).2.1 := by
  have h := c10_borrowed_buffer_not_returned sampleHook badEntry bufState rfl
    (by decide) (Or.inl ⟨_, rfl⟩)
  exact ⟨h.1, h.2.1, h.2.2 sampleEnv samplePool [] sampleMsg⟩

/-! ## Lemmas on the default-field merge and the encoder's copy loop -/

theorem mergeDefaults_nil (data : Fields) : mergeDefaults [] data = data := rfl

theorem mergeDefaults_cons (k0 : String) (v0 : Value) (t data : Fields) :
    mergeDefaults ((k0, v0) :: t) data =
      mergeDefaults t (if (getVal data k0).isSome then data else insertS data k0 v0) := rfl

/-- The merge fills only keys absent from the record: the merged mapping
looks a key up in the record first, then in the defaults. -/
theorem mergeDefaults_getVal (defaults : Fields) :
    ∀ (data : Fields) (k : String),
      getVal (mergeDefaults defaults data) k =
        match getVal data k with
        | some v => some v
        | none => getVal defaults k := by
  induction defaults with
  | nil =>
    intro data k
    cases h : getVal data k <;> simp [mergeDefaults_nil, getVal, h]
  | cons hd t ih =>
    intro data k
    obtain ⟨k0, v0⟩ := hd
    rw [mergeDefaults_cons]
    by_cases h0 : (getVal data k0).isSome
    · rw [if_pos h0, ih]
      cases h : getVal data k with
      | some v => simp
      | none =>
        have hk : ¬ k = k0 := by
          intro he
          rw [← he, h] at h0
          simp at h0
        simp [getVal, hk]
    · rw [if_neg h0, ih, getVal_insertS]
      by_cases hk : k = k0
      · subst hk
        have h2 : getVal data k = none := by
          cases h : getVal data k
          · rfl
          · rw [h] at h0
            simp at h0
        simp [h2, getVal]
      · simp only [hk, if_false]
        cases h : getVal data k <;> simp [getVal, hk]

/-- Generic form of the encoder's copy loop, for its lemmas. -/
def insFold (g : String → String) (f : Value → Value) (acc l : Fields) : Fields :=
  l.foldl (fun a kv => insertS a (g kv.1) (f kv.2)) acc

theorem copyFields_eq_insFold (pfx : String) (l : Fields) :
    copyFields pfx l = insFold (stripKey pfx) errConv [] l := rfl

theorem stripKey_empty (k : String) : stripKey "" k = k := by
  simp [stripKey]

theorem mem_keysOf_insFold (g : String → String) (f : Value → Value) (l : Fields) :
    ∀ (acc : Fields) (k : String),
      k ∈ keysOf (insFold g f acc l) ↔
        k ∈ keysOf acc ∨ k ∈ l.map (fun kv => g kv.1) := by
  induction l with
  | nil => intro acc k; simp [insFold]
  | cons hd t ih =>
    intro acc k
    show k ∈ keysOf (insFold g f (insertS acc (g hd.1) (f hd.2)) t) ↔ _
    rw [ih, mem_keysOf_insertS]
    simp
    tauto

theorem getVal_insFold_notin (g : String → String) (f : Value → Value) (l : Fields) :
    ∀ (acc : Fields) (k : String), (∀ kv ∈ l, ¬ g kv.1 = k) →
      getVal (insFold g f acc l) k = getVal acc k := by
  induction l with
  | nil => intro acc k _; rfl
  | cons hd t ih =>
    intro acc k hk
    show getVal (insFold g f (insertS acc (g hd.1) (f hd.2)) t) k = _
    rw [ih _ _ (fun kv hkv => hk kv (List.mem_cons_of_mem hd hkv)), getVal_insertS]
    have : ¬ k = g hd.1 := fun he => hk hd (List.mem_cons_self hd t) he.symm
    simp [this]

/-- Copy loop with no prefix configured and unique record keys: the output
mapping is the record mapping up to error-to-string conversion of values. -/
theorem getVal_insFold_id (f : Value → Value) (l : Fields) :
    ∀ (acc : Fields) (k : String), (keysOf l).Nodup →
      getVal (insFold id f acc l) k =
        match getVal l k with
        | some v => some (f v)
        | none => getVal acc k := by
  induction l with
  | nil => intro acc k _; rfl
  | cons hd t ih =>
    intro acc k hnd
    obtain ⟨k0, v0⟩ := hd
    have hnd2 : (keysOf t).Nodup := (List.nodup_cons.mp hnd).2
    have h0 : k0 ∉ keysOf t := (List.nodup_cons.mp hnd).1
    show getVal (insFold id f (insertS acc k0 (f v0)) t) k = _
    by_cases hk : k = k0
    · subst hk
      rw [getVal_insFold_notin id f t _ _ (fun kv hkv he => h0 (by
        rw [← he]
        exact List.mem_map_of_mem Prod.fst hkv)), getVal_insertS]
      simp [getVal]
    · rw [ih _ _ hnd2, getVal_insertS]
      simp only [hk, if_false]
      cases h : getVal t k <;> simp [getVal, hk, h]

theorem copyFields_empty_eq (l : Fields) :
    copyFields "" l = insFold id errConv [] l := by
  simp only [copyFields, insFold, stripKey_empty, id_eq]

/-- The canonical schema keys the encoder always writes (`type` when a label
is configured). -/
def canonicalKeys : List String := ["@version", "@timestamp", "message", "level", "type"]

/-- Keys the encoder writes on its own: the canonical keys and the
collision-renamed slots. -/
def reservedKeys : List String :=
  canonicalKeys ++ ["fields.message", "fields.level", "fields.type"]

theorem getVal_eq_none (l : List (String × α)) (k : String) (h : k ∉ keysOf l) :
    getVal l k = none := by
  cases hv : getVal l k with
  | none => rfl
  | some v =>
    exact absurd ((getVal_isSome_iff l k).mp (by rw [hv]; rfl)) h

theorem mem_keysOf_copyFields_empty (l : Fields) (k : String) :
    k ∈ keysOf (copyFields "" l) ↔ k ∈ keysOf l := by
  rw [copyFields_empty_eq, mem_keysOf_insFold]
  simp [keysOf]

/-- Concrete defaults and entry for the C7 witness. -/
def c7Defaults : Fields := [("a", .vStr "x"), ("b", .vStr "y")]

def c7Entry : Entry := ⟨"m", .lvlInfo, 0, [("b", .vStr "z")]⟩

/-- C7 counterexample: the claim's consequence "the encoded document's field
set equals R.fields ∪ D" is false as stated — the encoder always adds its
canonical keys, so already for the empty record and empty defaults the
encoded field set is not R.fields ∪ D. -/
theorem c7_counterexample :
    keysOf (buildFields ⟨"t", ""⟩ ⟨"m", .lvlDebug, 0, []⟩ "") ≠
      keysOf (mergeDefaults [] ([] : Fields)) := by decide

/-- C7 (amended): `Fire` merges the defaults filling only keys absent from
the record — for every key the merged mapping takes the record's value when
present, else the default — and, when no prefix is configured, the record
keys are unique and no user key collides with a reserved key, the encoded
document's field set equals the merged key set (R.fields ∪ D with R.fields
winning) plus the canonical keys, with each user value carried over up to
the error-to-string conversion. -/
theorem c7_merge_fills_absent_keys (defaults : Fields) (entry : Entry) (t : String)
    (ht : ¬ t = "")
    (hnd : (keysOf (mergeDefaults defaults entry.data)).Nodup)
    (hres : ∀ k ∈ keysOf (mergeDefaults defaults entry.data), k ∉ reservedKeys) :
    (∀ k, getVal (mergeDefaults defaults entry.data) k =
        match getVal entry.data k with
        | some v => some v
        | none => getVal defaults k) ∧
    (∀ k, k ∈ keysOf
        (buildFields ⟨t, ""⟩ { entry with data := mergeDefaults defaults entry.data } "") ↔
        k ∈ keysOf (mergeDefaults defaults entry.data) ∨ k ∈ canonicalKeys) ∧
    (∀ k v, getVal (mergeDefaults defaults entry.data) k = some v →
        getVal (buildFields ⟨t, ""⟩ { entry with data := mergeDefaults defaults entry.data } "") k
          = some (errConv v)) := by
  have hm : ∀ k0 ∈ reservedKeys,
      getVal (mergeDefaults defaults entry.data) k0 = none := by
    intro k0 hk0
    refine getVal_eq_none _ _ (fun hmem => hres k0 hmem hk0)
  have hbuild : buildFields ⟨t, ""⟩ { entry with data := mergeDefaults defaults entry.data } "" =
      insertS (insertS (insertS (insertS (insertS
        (copyFields "" (mergeDefaults defaults entry.data))
        "@version" (.vStr "1"))
        "@timestamp" (.vStr (formatTime entry.time defaultTimestampFormat)))
        "message" (.vStr entry.message))
        "level" (.vStr entry.level.str))
        "type" (.vStr t) := by
    have h1 := hm "message" (by decide)
    have h2 := hm "level" (by decide)
    have h3 := hm "type" (by decide)
    simp [buildFields, h1, h2, h3, ht]
  refine ⟨fun k => mergeDefaults_getVal defaults entry.data k, ?_, ?_⟩
  · intro k
    rw [hbuild]
    simp only [mem_keysOf_insertS, mem_keysOf_copyFields_empty, canonicalKeys]
    simp
    tauto
  · intro k v hv
    have hkmem : k ∈ keysOf (mergeDefaults defaults entry.data) :=
      (getVal_isSome_iff _ k).mp (by rw [hv]; rfl)
    have hr := hres k hkmem
    simp only [reservedKeys, canonicalKeys, List.mem_append, List.mem_cons,
      List.not_mem_nil, or_false, not_or] at hr
    obtain ⟨⟨hr1, hr2, hr3, hr4, hr5⟩, _, _, _⟩ := hr
    rw [hbuild, getVal_insertS, getVal_insertS, getVal_insertS, getVal_insertS, getVal_insertS]
    simp only [hr1, hr2, hr3, hr4, hr5, if_false]
    rw [copyFields_empty_eq, getVal_insFold_id errConv _ _ _ hnd, hv]

/-- Witness for C7 at concrete defaults and record. -/
theorem c7_witness :
    (getVal (mergeDefaults c7Defaults c7Entry.data) "b" =
      match getVal c7Entry.data "b" with
      | some v => some v
      | none => getVal c7Defaults "b") ∧
    ("a" ∈ keysOf
        (buildFields ⟨"app", ""⟩ { c7Entry with data := mergeDefaults c7Defaults c7Entry.data } "") ↔
      "a" ∈ keysOf (mergeDefaults c7Defaults c7Entry.data) ∨ "a" ∈ canonicalKeys) ∧
    getVal (buildFields ⟨"app", ""⟩
        { c7Entry with data := mergeDefaults c7Defaults c7Entry.data } "") "b"
      = some (errConv (.vStr "z")) := by
  have h := c7_merge_fills_absent_keys c7Defaults c7Entry "app" (by decide) (by decide) (by decide)
  exact ⟨h.1 "b", h.2.1 "a", h.2.2 "b" (.vStr "z") (by decide)⟩

/-- A record whose field mapping collides with all three canonical keys, for
the C1 witness. -/
def c1Entry : Entry :=
  ⟨"msg", .lvlDebug, 0, [("message", .vStr "um"), ("level", .vInt 3), ("type", .vStr "ut")]⟩

/-- C1 counterexample: with prefix `"p"` and record field `"pmessage"`, the
output mapping after prefix stripping contains the key `message` (holding the
original value), yet the encoder moves nothing to `fields.message` and
overwrites `message` with the record's message text — the collision check
reads `entry.Data`, not the output mapping, so the claim as stated fails. -/
theorem c1_counterexample :
    getVal (copyFields "p" [("pmessage", Value.vStr "orig")]) "message"
      = some (Value.vStr "orig") ∧
    getVal (buildFields ⟨"", ""⟩ ⟨"hi", .lvlDebug, 0, [("pmessage", Value.vStr "orig")]⟩ "p")
      "fields.message" = none ∧
    getVal (buildFields ⟨"", ""⟩ ⟨"hi", .lvlDebug, 0, [("pmessage", Value.vStr "orig")]⟩ "p")
      "message" = some (Value.vStr "hi") := by decide

/-- C1 (amended): the collision handling keys off the record's original field
mapping `entry.Data` (not the post-strip output mapping): whenever
`entry.Data` contains a key `message`, its original value ends up at
`fields.message` while `message` always carries the record's message text;
identically for `level` (overwritten with the level's canonical name) and,
only when a type label is configured, for `type` (overwritten with the
label). -/
theorem c1_collision_keyed_on_entry_data (w : LogstashWriter) (entry : Entry) (pfx : String) :
    (∀ v, getVal entry.data "message" = some v →
      getVal (buildFields w entry pfx) "fields.message" = some v) ∧
    getVal (buildFields w entry pfx) "message" = some (.vStr entry.message) ∧
    (∀ v, getVal entry.data "level" = some v →
      getVal (buildFields w entry pfx) "fields.level" = some v) ∧
    getVal (buildFields w entry pfx) "level" = some (.vStr entry.level.str) ∧
    (¬ w.typ = "" →
      (∀ v, getVal entry.data "type" = some v →
        getVal (buildFields w entry pfx) "fields.type" = some v) ∧
      getVal (buildFields w entry pfx) "type" = some (.vStr w.typ)) := by
  by_cases hty : w.typ = "" <;>
    cases hm : getVal entry.data "message" <;>
    cases hl : getVal entry.data "level" <;>
    cases htv : getVal entry.data "type" <;>
    simp [buildFields, hty, hm, hl, htv, getVal_insertS]

/-- Witness for C1: a record colliding on all of `message`, `level`, `type`
keeps every original value under the `fields.`-renamed key while the
canonical keys carry the framework values. -/
theorem c1_witness :
    getVal (buildFields ⟨"lbl", ""⟩ c1Entry "->") "fields.message" = some (.vStr "um") ∧
    getVal (buildFields ⟨"lbl", ""⟩ c1Entry "->") "message" = some (.vStr c1Entry.message) ∧
    getVal (buildFields ⟨"lbl", ""⟩ c1Entry "->") "fields.level" = some (.vInt 3) ∧
    getVal (buildFields ⟨"lbl", ""⟩ c1Entry "->") "level" = some (.vStr c1Entry.level.str) ∧
    getVal (buildFields ⟨"lbl", ""⟩ c1Entry "->") "fields.type" = some (.vStr "ut") ∧
    getVal (buildFields ⟨"lbl", ""⟩ c1Entry "->") "type" = some (.vStr "lbl") := by
  have h := c1_collision_keyed_on_entry_data ⟨"lbl", ""⟩ c1Entry "->"
  exact ⟨h.1 _ rfl, h.2.1, h.2.2.1 _ rfl, h.2.2.2.1,
    (h.2.2.2.2 (by decide)).1 _ rfl, (h.2.2.2.2 (by decide)).2⟩

/-- The serialized JSON document of a small concrete record, for the C2
counterexample and witness. -/
def c2Doc : List Char :=
  match serializeFields (buildFields ⟨"t", ""⟩ ⟨"m", .lvlInfo, 0, []⟩ "") with
  | .ok cs => cs
  | .error _ => []

/-! ## The serialized document contains no newline byte -/

theorem digitChar_ne (d : Nat) : ¬ digitChar d = '\n' := by
  unfold digitChar
  split <;> decide

theorem hexDigit_ne (d : Nat) : ¬ hexDigit d = '\n' := by
  unfold hexDigit
  split <;> decide

theorem natCharsCore_no_nl :
    ∀ (fuel n : Nat) (acc : List Char), '\n' ∉ acc → '\n' ∉ natCharsCore fuel n acc := by
  intro fuel
  induction fuel with
  | zero => intro n acc h; exact h
  | succ f ih =>
    intro n acc h
    unfold natCharsCore
    split
    · intro hmem
      rcases List.mem_cons.mp hmem with he | hin
      · exact digitChar_ne n he.symm
      · exact h hin
    · refine ih _ _ ?_
      intro hmem
      rcases List.mem_cons.mp hmem with he | hin
      · exact digitChar_ne (n % 10) he.symm
      · exact h hin

theorem natChars_no_nl (n : Nat) : '\n' ∉ natChars n :=
  natCharsCore_no_nl (n + 1) n [] (by simp)

theorem intChars_no_nl (n : Int) : '\n' ∉ intChars n := by
  unfold intChars
  split
  · intro hmem
    rcases List.mem_cons.mp hmem with he | hin
    · exact absurd he (by decide)
    · exact natChars_no_nl _ hin
  · exact natChars_no_nl _

theorem escapeChar_no_nl (c : Char) : '\n' ∉ escapeChar c := by
  unfold escapeChar
  split_ifs with h1 h2 h3 h4 h5 h6 h7 h8 h9
  any_goals decide
  · intro hmem
    simp only [List.mem_cons, List.not_mem_nil, or_false] at hmem
    rcases hmem with he | he | he | he | he | he
    · exact absurd he (by decide)
    · exact absurd he (by decide)
    · exact absurd he (by decide)
    · exact absurd he (by decide)
    · exact hexDigit_ne _ he.symm
    · exact hexDigit_ne _ he.symm
  · intro hmem
    simp only [List.mem_cons, List.not_mem_nil, or_false] at hmem
    exact h3 hmem.symm

theorem quoteString_no_nl (s : String) : '\n' ∉ quoteString s := by
  unfold quoteString
  intro hmem
  rcases List.mem_cons.mp hmem with he | hin
  · exact absurd he (by decide)
  · rcases List.mem_append.mp hin with hin2 | he
    · rcases List.mem_flatten.mp hin2 with ⟨l, hl, hc⟩
      rcases List.mem_map.mp hl with ⟨c, _, rfl⟩
      exact escapeChar_no_nl c hc
    · exact absurd he (by decide)

theorem serializeValue_no_nl (v : Value) (cs : List Char)
    (h : serializeValue v = .ok cs) : '\n' ∉ cs := by
  cases v with
  | vStr s =>
    injection h with h
    rw [← h]
    exact quoteString_no_nl s
  | vInt n =>
    injection h with h
    rw [← h]
    exact intChars_no_nl n
  | vBool b =>
    cases b <;> injection h with h <;> rw [← h] <;> decide
  | vErr m =>
    injection h with h
    rw [← h]
    decide
  | vNull =>
    injection h with h
    rw [← h]
    decide
  | vOpaque t => exact absurd h (by simp [serializeValue])

theorem serializePairs_no_nl :
    ∀ (l : Fields) (cs : List Char), serializePairs l = .ok cs → '\n' ∉ cs := by
  intro l
  induction l with
  | nil =>
    intro cs h
    injection h with h
    rw [← h]
    exact List.not_mem_nil '\n'
  | cons hd t ih =>
    intro cs h
    obtain ⟨k, v⟩ := hd
    unfold serializePairs at h
    cases hv : serializeValue v with
    | error e => rw [hv] at h; exact absurd h (by simp)
    | ok vc =>
      cases ht : serializePairs t with
      | error e => rw [hv, ht] at h; exact absurd h (by simp)
      | ok tc =>
        rw [hv, ht] at h
        injection h with h
        rw [← h]
        intro hmem
        rcases List.mem_append.mp hmem with hq | hif
        · rcases List.mem_append.mp hq with hqk | hin
          · exact quoteString_no_nl k hqk
          · rcases List.mem_cons.mp hin with he | hvc
            · exact absurd he (by decide)
            · exact serializeValue_no_nl v vc hv hvc
        · by_cases hte : t.isEmpty
          · rw [if_pos hte] at hif
            exact List.not_mem_nil '\n' hif
          · rw [if_neg hte] at hif
            rcases List.mem_cons.mp hif with he | htc
            · exact absurd he (by decide)
            · exact ih tc ht htc

theorem serializeFields_no_nl (l : Fields) (cs : List Char)
    (h : serializeFields l = .ok cs) : '\n' ∉ cs := by
  unfold serializeFields at h
  cases hp : serializePairs l with
  | error e => rw [hp] at h; exact absurd h (by simp)
  | ok body =>
    rw [hp] at h
    injection h with h
    rw [← h]
    intro hmem
    rcases List.mem_cons.mp hmem with he | hin
    · exact absurd he (by decide)
    · rcases List.mem_append.mp hin with hb | he
      · exact serializePairs_no_nl l body hp hb
      · exact absurd he (by decide)

/-- C2 counterexample: on a concrete record the bytes the encoder writes to
the sink are the serialized JSON document followed by *two* newline
characters (`Encode` appends one and the writer writes one more), not by
exactly one. -/
theorem c2_counterexample :
    writeWithPrefix ⟨"t", ""⟩ ⟨"m", .lvlInfo, 0, []⟩ "" = .ok (c2Doc ++ ['\n', '\n']) ∧
    '\n' ∉ c2Doc ∧
    c2Doc ++ ['\n', '\n'] ≠ c2Doc ++ ['\n'] := by
  refine ⟨rfl, by decide, by decide⟩

/-- C2 (amended): for every record and configuration on which encoding
succeeds, the bytes written to the sink are exactly one serialized JSON
object followed by exactly two trailing newline characters, with no
additional bytes; the JSON document itself contains no newline byte
(`json.Encoder.Encode` terminates the document with one newline and
`WriteWithPrefix` writes one more). -/
theorem c2_one_document_two_newlines (w : LogstashWriter) (entry : Entry) (pfx : String)
    (doc out : List Char)
    (hdoc : serializeFields (buildFields w entry pfx) = .ok doc)
    (hout : writeWithPrefix w entry pfx = .ok out) :
    out = doc ++ ['\n', '\n'] ∧ '\n' ∉ doc := by
  refine ⟨?_, serializeFields_no_nl _ doc hdoc⟩
  unfold writeWithPrefix jsonEncode at hout
  rw [hdoc] at hout
  injection hout with hout
  rw [← hout, List.append_assoc]
  rfl

/-- Witness for C2 at the concrete record behind `c2Doc`. -/
theorem c2_witness :
    c2Doc ++ ['\n', '\n'] = c2Doc ++ ['\n', '\n'] ∧ '\n' ∉ c2Doc :=
  c2_one_document_two_newlines ⟨"t", ""⟩ ⟨"m", .lvlInfo, 0, []⟩ "" c2Doc
    (c2Doc ++ ['\n', '\n']) rfl rfl

end LogrusLogstash
